import Mathlib

/-!
Shallow embedding of the MindEcho voice-notes application
(src/figmacode/components/VoiceNotesApp.tsx and collaborators) and proofs
about its note store, folder store, filter, timeline presenter and
recording-session controller.

Timestamps are modelled as integers (milliseconds since the epoch, with the
local-time offset already folded in, so one calendar day is one block of
86400000 consecutive values).
-/

namespace MindEcho

/-- Note record, fields as constructed and consumed in VoiceNotesApp.tsx
(id, text, timestamp, optional title, folderId, duration, isFavorite, tags). -/
structure Note where
  id : String
  text : String
  timestamp : Int
  title : Option String := none
  folderId : Option String := none
  duration : Option Int := none
  isFavorite : Option Bool := none
  tags : List String := []
deriving DecidableEq, Repr

/-- Folder record (id, name, color, createdAt) as used by VoiceNotesApp.tsx. -/
structure Folder where
  id : String
  name : String
  color : Option String := none
  createdAt : Int := 0
deriving DecidableEq, Repr

/-- Filter criteria, mirroring the NoteFilter object handed to the
filteredNotes computation: searchQuery, folderId, favorites, dateRange. -/
structure NoteFilter where
  searchQuery : Option String := none
  folderId : Option String := none
  favorites : Option Bool := none
  dateRange : Option (Int × Int) := none
deriving DecidableEq, Repr

/-! ### String helpers: JavaScript String.prototype.includes over char lists -/

/-- Whether the first char list is a leading segment of the second
(the prefix test underlying JavaScript includes). -/
def leadsList : List Char → List Char → Bool
  | [], _ => true
  | _ :: _, [] => false
  | a :: as, b :: bs => a == b && leadsList as bs

/-- Whether the first char list occurs contiguously inside the second. -/
def inclList : List Char → List Char → Bool
  | needle, [] => leadsList needle []
  | needle, h :: t => leadsList needle (h :: t) || inclList needle t

/-- JavaScript hay.includes(needle) on strings. -/
def strIncludes (hay needle : String) : Bool :=
  inclList needle.data hay.data

/-- JavaScript toLowerCase, character by character. -/
def lowerStr (s : String) : String :=
  ⟨s.data.map Char.toLower⟩

/-- JavaScript trim: whitespace stripped from both ends. -/
def strTrim (s : String) : String :=
  ⟨((s.data.dropWhile Char.isWhitespace).reverse.dropWhile
      Char.isWhitespace).reverse⟩

/-- JavaScript split on the newline character. -/
def splitOnNL : List Char → List (List Char)
  | [] => [[]]
  | c :: rest =>
    match splitOnNL rest with
    | [] => [[c]]
    | h :: t => if c = '\n' then [] :: h :: t else (c :: h) :: t

/-- JavaScript join with the newline character. -/
def joinNL : List (List Char) → List Char
  | [] => []
  | [l] => l
  | l :: rest => l ++ '\n' :: joinNL rest

/-- endsWith for a one-character suffix: the last character equals it. -/
def endsWithChar (cs : List Char) (c : Char) : Bool :=
  match cs.getLast? with
  | some x => x == c
  | none => false

/-! ### Filter/Search view (filteredNotes in VoiceNotesApp.tsx)

The source is an early-return chain inside notes.filter; each auxiliary
function below is one of the four rejection tests, with JavaScript
truthiness of the optional criterion made explicit. -/

/-- First rejection test: a truthy searchQuery whose lowercased text is not
contained in the lowercased note text. -/
def failsSearch (f : NoteFilter) (n : Note) : Bool :=
  match f.searchQuery with
  | some q => q != "" && !(strIncludes (lowerStr n.text) (lowerStr q))
  | none => false

/-- Second rejection test: a truthy folderId different from the note's. -/
def failsFolder (f : NoteFilter) (n : Note) : Bool :=
  match f.folderId with
  | some fid => fid != "" && n.folderId != some fid
  | none => false

/-- Third rejection test: favorites-only set and the note not favorite. -/
def failsFavorites (f : NoteFilter) (n : Note) : Bool :=
  match f.favorites with
  | some b => b && n.isFavorite != some true
  | none => false

/-- Fourth rejection test: a date range present and the note timestamp
strictly before its start or strictly after its end. -/
def failsDateRange (f : NoteFilter) (n : Note) : Bool :=
  match f.dateRange with
  | some (s, e) => decide (n.timestamp < s) || decide (e < n.timestamp)
  | none => false

/-- The predicate of the notes.filter call: a note passes when no
rejection test fires. -/
def noteMatches (f : NoteFilter) (n : Note) : Bool :=
  !failsSearch f n && !failsFolder f n && !failsFavorites f n && !failsDateRange f n

/-- filteredNotes from VoiceNotesApp.tsx: notes.filter over the chain. -/
def filteredNotes (f : NoteFilter) (notes : List Note) : List Note :=
  notes.filter (noteMatches f)

/-- Spec-side search criterion: when a non-empty search string is specified,
its lowercasing is a substring of the lowercased note text. -/
def specSearch (f : NoteFilter) (n : Note) : Bool :=
  match f.searchQuery with
  | some q => if q = "" then true else strIncludes (lowerStr n.text) (lowerStr q)
  | none => true

/-- Spec-side folder criterion: when a non-empty folder reference is
specified, the note's folder reference equals it exactly. -/
def specFolder (f : NoteFilter) (n : Note) : Bool :=
  match f.folderId with
  | some fid => if fid = "" then true else n.folderId == some fid
  | none => true

/-- Spec-side favorites criterion: when favorites-only is set, the note's
isFavorite is truthy. -/
def specFavorites (f : NoteFilter) (n : Note) : Bool :=
  match f.favorites with
  | some b => if b then n.isFavorite == some true else true
  | none => true

/-- Spec-side date criterion: when a range is specified, the note timestamp
lies inside it inclusively. -/
def specDateRange (f : NoteFilter) (n : Note) : Bool :=
  match f.dateRange with
  | some (s, e) => decide (s ≤ n.timestamp ∧ n.timestamp ≤ e)
  | none => true

/-- Spec-side matching predicate, written from the specification's words: the
conjunction of the specified criteria. -/
def specMatches (f : NoteFilter) (n : Note) : Bool :=
  specSearch f n && specFolder f n && specFavorites f n && specDateRange f n

/-! ### Note store operations (saveNote / updateNote / deleteNote) -/

/-- A partial note update (Partial of Note in the source): a field present in
the update overrides the note's field, including present-but-undefined
overrides of optional fields, exactly as an object spread does. -/
structure NoteUpdate where
  id : Option String := none
  text : Option String := none
  timestamp : Option Int := none
  title : Option (Option String) := none
  folderId : Option (Option String) := none
  duration : Option (Option Int) := none
  isFavorite : Option (Option Bool) := none
  tags : Option (List String) := none
deriving DecidableEq, Repr

/-- The object spread of an update onto a note. -/
def applyUpdate (u : NoteUpdate) (n : Note) : Note :=
  { id := u.id.getD n.id
    text := u.text.getD n.text
    timestamp := u.timestamp.getD n.timestamp
    title := u.title.getD n.title
    folderId := u.folderId.getD n.folderId
    duration := u.duration.getD n.duration
    isFavorite := u.isFavorite.getD n.isFavorite
    tags := u.tags.getD n.tags }

/-- The prepend step of saveNote: updatedNotes is the new note followed by
the previous list. -/
def addNote (notes : List Note) (n : Note) : List Note :=
  n :: notes

/-- updateNote from VoiceNotesApp.tsx: map replacing fields on the note whose
id matches. -/
def updateNote (notes : List Note) (id : String) (u : NoteUpdate) : List Note :=
  notes.map (fun n => if n.id = id then applyUpdate u n else n)

/-- deleteNote from VoiceNotesApp.tsx: filter keeping notes with another id. -/
def deleteNote (notes : List Note) (id : String) : List Note :=
  notes.filter (fun n => n.id != id)

/-! ### Folder store (createFolder / updateFolder / deleteFolder) -/

/-- The per-note step of deleteFolder: clear the folder reference when it
points at the removed folder, otherwise leave the note alone. -/
def clearFolderRef (fid : String) (n : Note) : Note :=
  if n.folderId = some fid then { n with folderId := none } else n

/-- The notes half of deleteFolder in VoiceNotesApp.tsx. -/
def deleteFolderNotes (notes : List Note) (fid : String) : List Note :=
  notes.map (clearFolderRef fid)

/-- The folders half of deleteFolder in VoiceNotesApp.tsx. -/
def deleteFolderFolders (folders : List Folder) (fid : String) : List Folder :=
  folders.filter (fun g => g.id != fid)

/-- deleteFolder as one logical step over both collections. -/
def deleteFolder (notes : List Note) (folders : List Folder) (fid : String) :
    List Note × List Folder :=
  (deleteFolderNotes notes fid, deleteFolderFolders folders fid)

/-! ### Note store as an operation sequence (for the net-effect property) -/

/-- One operation on the note store. -/
inductive StoreOp where
  | add (n : Note)
  | update (id : String) (u : NoteUpdate)
  | remove (id : String)
deriving DecidableEq, Repr

/-- Dispatch one operation to the implementation functions. -/
def applyOp (notes : List Note) : StoreOp → List Note
  | .add n => addNote notes n
  | .update id u => updateNote notes id u
  | .remove id => deleteNote notes id

/-- The note list after a whole operation sequence, applied left to right. -/
def applyOps (notes : List Note) (ops : List StoreOp) : List Note :=
  ops.foldl applyOp notes

/-- Modelled from the spec: update(id, partialFields) replaces fields on the
matching note, written as explicit structural recursion over the list. -/
def specUpdate : List Note → String → NoteUpdate → List Note
  | [], _, _ => []
  | n :: ns, id, u =>
    (if n.id = id then applyUpdate u n else n) :: specUpdate ns id u

/-- Modelled from the spec: remove(id) deletes the notes carrying that id,
written as explicit structural recursion over the list. -/
def specRemove : List Note → String → List Note
  | [], _ => []
  | n :: ns, id => if n.id = id then specRemove ns id else n :: specRemove ns id

/-- Modelled from the spec: one operation of the store, add placing the new
note first. -/
def specApplyOp (notes : List Note) : StoreOp → List Note
  | .add n => n :: notes
  | .update id u => specUpdate notes id u
  | .remove id => specRemove notes id

/-- Modelled from the spec: the net effect of the sequence applied in order. -/
def specApplyOps (notes : List Note) : List StoreOp → List Note
  | [] => notes
  | op :: ops => specApplyOps (specApplyOp notes op) ops

/-! ### Speech recognition results (the onresult handler) -/

/-- One emitted recognition result: its text and whether it is final. -/
structure SpeechResult where
  isFinal : Bool
  text : String
deriving DecidableEq, Repr

/-- The finalTranscript accumulator of the onresult handler: the final
results of one event, each followed by a space. -/
def finalsOfEvent (ev : List SpeechResult) : String :=
  ev.foldl (fun acc r => if r.isFinal then acc ++ r.text ++ " " else acc) ""

/-- The interimTranscript accumulator of the onresult handler: the
provisional results of one event concatenated. -/
def interimOfEvent (ev : List SpeechResult) : String :=
  ev.foldl (fun acc r => if r.isFinal then acc else acc ++ r.text) ""

/-- The onresult handler of VoiceNotesApp.tsx, acting on the transcript
state: append the finals, then merge the interim text by replacing the last
line when it does not end in sentence punctuation, otherwise appending. -/
def onresultStep (prev : String) (ev : List SpeechResult) : String :=
  let finalT := finalsOfEvent ev
  let interimT := interimOfEvent ev
  let s1 := if finalT != "" then prev ++ finalT else prev
  if interimT != "" then
    let lines := splitOnNL s1.data
    let lastLine := lines.getLastD []
    if lastLine != [] && !endsWithChar lastLine '.' && !endsWithChar lastLine '!' &&
        !endsWithChar lastLine '?' then
      (⟨joinNL (lines.dropLast ++ [interimT.data])⟩ : String)
    else
      s1 ++ interimT
  else s1

/-- The transcript state after a sequence of onresult events, starting from
the empty transcript of a fresh session. -/
def processEvents (evs : List (List SpeechResult)) : String :=
  evs.foldl onresultStep ""

/-- The concatenation of exactly the final results, in arrival order (what
the specification says the accumulated transcript is). -/
def finalsConcat (evs : List (List SpeechResult)) : String :=
  evs.foldl (fun acc ev => acc ++ finalsOfEvent ev) ""

/-! ### Recording session controller state -/

/-- Browser microphone permission state. -/
inductive PermState where
  | unknown
  | granted
  | denied
  | prompt
deriving DecidableEq, Repr

/-- The controller state of VoiceNotesApp.tsx: the React state variables,
the refs, and the relevant browser-side facts (whether the recognition
subsystem is running, whether the tab is hidden, whether a permission
request would succeed). -/
structure AppState where
  isSupported : Bool := true
  secureConnection : Bool := true
  permissionState : PermState := .unknown
  hasTriedPermission : Bool := false
  grantSucceeds : Bool := true
  hasRecognition : Bool := true
  recognitionRunning : Bool := false
  isRecognitionActive : Bool := false
  documentHidden : Bool := false
  isRecording : Bool := false
  transcript : String := ""
  recordingStartTime : Option Int := none
  recordingDuration : Int := 0
  selectedFolderId : Option String := none
  now : Int := 0
  notes : List Note := []
deriving DecidableEq, Repr

/-- stopRecording from VoiceNotesApp.tsx: leave the recording state, clear
the start time, and stop the recognition subsystem; the transcript is left
as it is. -/
def stopRecording (s : AppState) : AppState :=
  { s with isRecording := false, recordingStartTime := none,
           isRecognitionActive := false,
           recognitionRunning := if s.hasRecognition then false else s.recognitionRunning }

/-- The try block of startRecording: clear the transcript, enter the
recording state, then start recognition; starting an already-running
recognition throws InvalidStateError, whose catch leaves the recording
state again. -/
def startRecordingBody (s : AppState) : AppState :=
  let s2 := { s with transcript := "", isRecording := true,
                     recordingStartTime := some s.now, recordingDuration := 0,
                     isRecognitionActive := false }
  if s2.recognitionRunning then
    { s2 with isRecording := false, recordingStartTime := none }
  else
    { s2 with recognitionRunning := true }

/-- startRecording from VoiceNotesApp.tsx: bail out without recognition,
support or a secure connection; request permission when not yet granted;
then run the try block. -/
def startRecording (s : AppState) : AppState :=
  if !s.hasRecognition || !s.isSupported then s
  else if !s.secureConnection then s
  else if s.permissionState = .granted then startRecordingBody s
  else if s.grantSucceeds then
    startRecordingBody { s with permissionState := .granted, hasTriedPermission := true }
  else
    { s with permissionState := .denied, hasTriedPermission := true }

/-- handleRecordingClick from VoiceNotesApp.tsx: the record button toggles. -/
def handleRecordingClick (s : AppState) : AppState :=
  if s.isRecording then stopRecording s else startRecording s

/-- The onend handler of VoiceNotesApp.tsx together with its deferred retry:
mark recognition inactive (the subsystem has ended); when still recording,
the tab visible and permission granted, attempt the restart, which starts
recognition again. Returns the new state and whether a restart was
attempted. -/
def onendStep (s : AppState) : AppState × Bool :=
  let s1 := { s with isRecognitionActive := false, recognitionRunning := false }
  if s1.isRecording && !s1.documentHidden && s1.permissionState == .granted then
    if s1.isRecording && s1.hasRecognition && !s1.isRecognitionActive then
      ({ s1 with recognitionRunning := true }, true)
    else (s1, false)
  else (s1, false)

/-- saveNote from VoiceNotesApp.tsx: a blank (empty or whitespace-only)
transcript saves nothing; otherwise a new note is prepended and the
transcript cleared. -/
def saveNote (s : AppState) : AppState :=
  if strTrim s.transcript = "" then s
  else
    let dur : Int :=
      match s.recordingStartTime with
      | some t0 => (s.now - t0) / 1000
      | none => s.recordingDuration
    let newNote : Note :=
      { id := toString s.now, text := strTrim s.transcript, timestamp := s.now,
        folderId := s.selectedFolderId, duration := some dur }
    { s with notes := addNote s.notes newNote, transcript := "",
             recordingDuration := 0 }

/-! ### Timeline presenter (NotesHistoryTimeline.tsx) -/

/-- Milliseconds in one day. -/
def msPerDay : Int := 86400000

/-- The calendar day of a timestamp (the toDateString grouping key). -/
def dayOf (t : Int) : Int := t / msPerDay

/-- One step of the grouping reduce: append the note to its day's group,
creating the group at the end on first occurrence (object key insertion
order). -/
def addToGroups (gs : List (Int × List Note)) (d : Int) (n : Note) :
    List (Int × List Note) :=
  match gs with
  | [] => [(d, [n])]
  | (k, ns) :: rest =>
    if k = d then (k, ns ++ [n]) :: rest else (k, ns) :: addToGroups rest d n

/-- groupedNotes from NotesHistoryTimeline.tsx: the reduce over the note
list. -/
def groupedNotes (notes : List Note) : List (Int × List Note) :=
  notes.foldl (fun gs n => addToGroups gs (dayOf n.timestamp) n) []

/-- The comparator of sortedDates: newer day first. -/
def groupGE (g1 g2 : Int × List Note) : Prop := g2.1 ≤ g1.1

instance : DecidableRel groupGE :=
  fun g1 g2 => (inferInstance : Decidable (g2.1 ≤ g1.1))

instance : IsTotal (Int × List Note) groupGE :=
  ⟨fun a b => le_total b.1 a.1⟩

instance : IsTrans (Int × List Note) groupGE :=
  ⟨fun _ _ _ h1 h2 => le_trans h2 h1⟩

/-- sortedDates from NotesHistoryTimeline.tsx, carried out on the group
list: groups ordered newest day first (stable sort, as the browser sort
is). -/
def sortedGroups (notes : List Note) : List (Int × List Note) :=
  List.insertionSort groupGE (groupedNotes notes)

/-- The within-group comparator: newer timestamp first. -/
def noteGE (a b : Note) : Prop := b.timestamp ≤ a.timestamp

instance : DecidableRel noteGE :=
  fun a b => (inferInstance : Decidable (b.timestamp ≤ a.timestamp))

instance : IsTotal Note noteGE :=
  ⟨fun a b => le_total b.timestamp a.timestamp⟩

instance : IsTrans Note noteGE :=
  ⟨fun _ _ _ h1 h2 => le_trans h2 h1⟩

/-- The within-group sort of NotesHistoryTimeline.tsx. -/
def sortGroupNotes (ns : List Note) : List Note :=
  List.insertionSort noteGE ns

/-- Weekday names, index 0 the weekday of 1969-12-28. -/
def weekdayNames : List String :=
  ["Sunday", "Monday", "Tuesday", "Wednesday", "Thursday", "Friday", "Saturday"]

/-- Month names, index 0 for January. -/
def monthNames : List String :=
  ["January", "February", "March", "April", "May", "June", "July", "August",
   "September", "October", "November", "December"]

/-- Civil date (year, month, day-of-month) of a day number counted from
1970-01-01, by the standard days-to-civil conversion. -/
def civilOfDay (z0 : Int) : Int × Int × Int :=
  let z := z0 + 719468
  let era := z / 146097
  let doe := z - era * 146097
  let yoe := (doe - doe / 1460 + doe / 36524 - doe / 146096) / 365
  let y := yoe + era * 400
  let doy := doe - (365 * yoe + yoe / 4 - yoe / 100)
  let mp := (5 * doy + 2) / 153
  let dm := doy - (153 * mp + 2) / 5 + 1
  let m := mp + (if mp < 10 then 3 else -9)
  (y + (if m ≤ 2 then 1 else 0), m, dm)

/-- toLocaleDateString with long weekday, long month and numeric day, for a
day number. -/
def localeDateString (d : Int) : String :=
  let wd := (d + 4) % 7
  let c := civilOfDay d
  weekdayNames.getD wd.toNat "" ++ ", " ++ monthNames.getD (c.2.1 - 1).toNat ""
    ++ " " ++ toString c.2.2

/-- formatDate from NotesHistoryTimeline.tsx: label the current day Today,
the day of (now minus 24 hours) Yesterday, anything else by long
weekday/month/day. -/
def formatDate (now : Int) (d : Int) : String :=
  if d = dayOf now then "Today"
  else if d = dayOf (now - msPerDay) then "Yesterday"
  else localeDateString d

/-- The rendered timeline: the day groups, newest day first, each with its
label and its notes ordered newest first. -/
def timeline (now : Int) (notes : List Note) : List (String × List Note) :=
  (sortedGroups notes).map (fun g => (formatDate now g.1, sortGroupNotes g.2))

theorem search_factor (f : NoteFilter) (n : Note) :
    (!failsSearch f n) = specSearch f n := by
  rcases f with ⟨sq, fid, fav, dr⟩
  rcases sq with _ | q
  · rfl
  · by_cases hq : q = ""
    · subst hq; simp [failsSearch, specSearch]
    · simp [failsSearch, specSearch, hq, bne]

theorem folder_factor (f : NoteFilter) (n : Note) :
    (!failsFolder f n) = specFolder f n := by
  rcases f with ⟨sq, fid, fav, dr⟩
  rcases fid with _ | fid
  · rfl
  · by_cases hf : fid = ""
    · subst hf; simp [failsFolder, specFolder]
    · simp [failsFolder, specFolder, hf, bne]

theorem favorites_factor (f : NoteFilter) (n : Note) :
    (!failsFavorites f n) = specFavorites f n := by
  rcases f with ⟨sq, fid, fav, dr⟩
  rcases fav with _ | b
  · rfl
  · cases b <;> simp [failsFavorites, specFavorites, bne]

theorem dateRange_factor (f : NoteFilter) (n : Note) :
    (!failsDateRange f n) = specDateRange f n := by
  rcases f with ⟨sq, fid, fav, dr⟩
  rcases dr with _ | ⟨s, e⟩
  · rfl
  · simp only [failsDateRange, specDateRange, Bool.not_or, ← decide_not,
      ← Bool.decide_and, decide_eq_decide]
    omega

theorem noteMatches_eq_specMatches (f : NoteFilter) (n : Note) :
    noteMatches f n = specMatches f n := by
  unfold noteMatches specMatches
  rw [search_factor, folder_factor, favorites_factor, dateRange_factor]

theorem updateNote_eq_specUpdate (notes : List Note) (id : String)
    (u : NoteUpdate) : updateNote notes id u = specUpdate notes id u := by
  induction notes with
  | nil => rfl
  | cons n ns ih => simp [updateNote, specUpdate, List.map] at *; exact ih

theorem deleteNote_eq_specRemove (notes : List Note) (id : String) :
    deleteNote notes id = specRemove notes id := by
  induction notes with
  | nil => rfl
  | cons n ns ih =>
    simp only [deleteNote, List.filter_cons, specRemove, bne] at *
    by_cases h : n.id = id <;> simp [h] <;> exact ih

theorem applyOp_eq_specApplyOp (notes : List Note) (op : StoreOp) :
    applyOp notes op = specApplyOp notes op := by
  cases op with
  | add n => rfl
  | update id u => exact updateNote_eq_specUpdate notes id u
  | remove id => exact deleteNote_eq_specRemove notes id

/-- C6: for every note list and filter criteria the filter returns exactly the
notes satisfying the conjunction of all specified criteria (case-insensitive
substring search, exact folder equality, truthy isFavorite under
favorites-only, inclusive date range), in their original relative order; in
particular the milk example of the specification. -/
theorem filteredNotes_conjunction (f : NoteFilter) (notes : List Note) :
    filteredNotes f notes = notes.filter (specMatches f) ∧
    List.Sublist (filteredNotes f notes) notes ∧
    filteredNotes { searchQuery := some "milk" }
        [{ id := "1", text := "Buy Milk", timestamp := 0 },
         { id := "2", text := "call mom", timestamp := 0 },
         { id := "3", text := "MILK run", timestamp := 0 }] =
      [{ id := "1", text := "Buy Milk", timestamp := 0 },
       { id := "3", text := "MILK run", timestamp := 0 }] := by
  refine ⟨?_, ?_, by decide⟩
  · unfold filteredNotes
    exact List.filter_congr (fun n _ => noteMatches_eq_specMatches f n)
  · unfold filteredNotes
    exact List.filter_sublist notes

/-- C7: filtering with empty criteria (no search string, no folder, no
favorites flag, no date range) returns the input list unchanged. -/
theorem filteredNotes_empty_identity (notes : List Note) :
    filteredNotes {} notes = notes := by
  have h : noteMatches {} = fun _ => true := by funext n; rfl
  unfold filteredNotes
  rw [h]
  exact List.filter_true notes

/-- C9: finalizing with an empty or whitespace-only transcript adds no new
note; the note store is exactly what it was (indeed the whole state is
unchanged). -/
theorem saveNote_blank_no_note (s : AppState) (h : strTrim s.transcript = "") :
    saveNote s = s ∧ (saveNote s).notes = s.notes := by
  have he : saveNote s = s := by unfold saveNote; rw [if_pos h]
  exact ⟨he, by rw [he]⟩

/-- C9 witness: a whitespace-only transcript at a concrete state. -/
theorem saveNote_blank_no_note_witness :
    (saveNote { transcript := "   " } : AppState).notes = ([] : List Note) :=
  (saveNote_blank_no_note { transcript := "   " } (by decide)).2

/-- C4: deleting a folder clears folderId on exactly the notes referencing
it, leaves every other field of every note (and every non-referencing note)
unchanged, and removes exactly that folder from the folder list. -/
theorem deleteFolder_cascade (notes : List Note) (folders : List Folder)
    (fid : String) :
    (deleteFolder notes folders fid).1.length = notes.length ∧
    (∀ i : Nat, (deleteFolder notes folders fid).1[i]? =
      (notes[i]?).map (clearFolderRef fid)) ∧
    (∀ n : Note, n.folderId = some fid →
      (clearFolderRef fid n).folderId = none ∧
      (clearFolderRef fid n).id = n.id ∧
      (clearFolderRef fid n).text = n.text ∧
      (clearFolderRef fid n).title = n.title ∧
      (clearFolderRef fid n).timestamp = n.timestamp ∧
      (clearFolderRef fid n).duration = n.duration ∧
      (clearFolderRef fid n).isFavorite = n.isFavorite ∧
      (clearFolderRef fid n).tags = n.tags) ∧
    (∀ n : Note, n.folderId ≠ some fid → clearFolderRef fid n = n) ∧
    (∀ g : Folder, g ∈ (deleteFolder notes folders fid).2 ↔
      g ∈ folders ∧ g.id ≠ fid) := by
  refine ⟨?_, ?_, ?_, ?_, ?_⟩
  · simp [deleteFolder, deleteFolderNotes]
  · intro i; simp [deleteFolder, deleteFolderNotes]
  · intro n h; simp [clearFolderRef, h]
  · intro n h; simp [clearFolderRef, h]
  · intro g; simp [deleteFolder, deleteFolderFolders, List.mem_filter, bne]

/-- C4 witness: a referencing and a non-referencing note at a concrete
folder id. -/
theorem deleteFolder_cascade_witness :
    (clearFolderRef "f1"
      { id := "n1", text := "t", timestamp := 0, folderId := some "f1" }).folderId
        = none ∧
    clearFolderRef "f1"
        { id := "n2", text := "u", timestamp := 1, folderId := some "f2" } =
      { id := "n2", text := "u", timestamp := 1, folderId := some "f2" } :=
  ⟨((deleteFolder_cascade [] [] "f1").2.2.1
      { id := "n1", text := "t", timestamp := 0, folderId := some "f1" } rfl).1,
   (deleteFolder_cascade [] [] "f1").2.2.2.1
      { id := "n2", text := "u", timestamp := 1, folderId := some "f2" }
      (by decide)⟩

/-- C10: update(id, fields) preserves length and relative order, leaves
every non-matching note entirely unchanged, replaces exactly the fields
present in the partial update on the matching note, and leaves the list
unchanged when no note carries the id. -/
theorem updateNote_frame (notes : List Note) (id : String) (u : NoteUpdate) :
    (updateNote notes id u).length = notes.length ∧
    (∀ i : Nat, (updateNote notes id u)[i]? =
      (notes[i]?).map (fun n => if n.id = id then applyUpdate u n else n)) ∧
    (∀ n : Note, n.id ≠ id → (if n.id = id then applyUpdate u n else n) = n) ∧
    (∀ n : Note,
      (applyUpdate u n).id = u.id.getD n.id ∧
      (applyUpdate u n).text = u.text.getD n.text ∧
      (applyUpdate u n).timestamp = u.timestamp.getD n.timestamp ∧
      (applyUpdate u n).title = u.title.getD n.title ∧
      (applyUpdate u n).folderId = u.folderId.getD n.folderId ∧
      (applyUpdate u n).duration = u.duration.getD n.duration ∧
      (applyUpdate u n).isFavorite = u.isFavorite.getD n.isFavorite ∧
      (applyUpdate u n).tags = u.tags.getD n.tags) ∧
    ((∀ n ∈ notes, n.id ≠ id) → updateNote notes id u = notes) := by
  refine ⟨?_, ?_, ?_, ?_, ?_⟩
  · simp [updateNote]
  · intro i; simp [updateNote]
  · intro n h; simp [h]
  · intro n; exact ⟨rfl, rfl, rfl, rfl, rfl, rfl, rfl, rfl⟩
  · induction notes with
    | nil => intro _; rfl
    | cons n ns ih =>
      intro h
      have h1 : n.id ≠ id := h n (by simp)
      have h2 := ih (fun m hm => h m (by simp [hm]))
      simp only [updateNote, List.map_cons] at *
      rw [if_neg h1, h2]

/-- C10 witness: an update at a concrete list whose single note does not
carry the updated id. -/
theorem updateNote_frame_witness :
    updateNote [{ id := "a", text := "t", timestamp := 0 }] "zzz"
        { text := some "new" } =
      [{ id := "a", text := "t", timestamp := 0 }] :=
  (updateNote_frame [{ id := "a", text := "t", timestamp := 0 }] "zzz"
      { text := some "new" }).2.2.2.2 (by decide)

/-- C5: the note list after any add/update/remove sequence equals the net
effect of the sequence applied in order (the spec-worded store), add places
the new note first, update preserves positions pointwise, and remove yields
a sublist (relative order kept). -/
theorem noteStore_net_effect (init : List Note) (ops : List StoreOp) :
    applyOps init ops = specApplyOps init ops ∧
    (∀ (n : Note) (l : List Note), applyOp l (StoreOp.add n) = n :: l) ∧
    (∀ (id : String) (u : NoteUpdate) (l : List Note) (i : Nat),
      (applyOp l (StoreOp.update id u))[i]? =
        (l[i]?).map (fun n => if n.id = id then applyUpdate u n else n)) ∧
    (∀ (id : String) (u : NoteUpdate) (l : List Note),
      (applyOp l (StoreOp.update id u)).length = l.length) ∧
    (∀ (id : String) (l : List Note),
      List.Sublist (applyOp l (StoreOp.remove id)) l) := by
  refine ⟨?_, fun n l => rfl, ?_, ?_, ?_⟩
  · induction ops generalizing init with
    | nil => rfl
    | cons op ops ih =>
      simp only [applyOps, List.foldl_cons, specApplyOps]
      rw [applyOp_eq_specApplyOp init op]
      exact ih (specApplyOp init op)
  · intro id u l i; simp [applyOp, updateNote]
  · intro id u l; simp [applyOp, updateNote]
  · intro id l; exact List.filter_sublist l

/-- C1: at the event sequence of a provisional "hello" followed by a final
"hello", the onresult handler leaves the provisional text in the accumulated
transcript: the state becomes "hellohello " while the concatenation of the
final results alone is "hello "; and at a final "hello" followed by a
provisional "wor", the provisional text replaces the whole accumulated
transcript (which never contains a newline, and after a final always ends in
a space, never in sentence punctuation), leaving "wor". In both cases the
accumulated transcript differs from the concatenation of the results marked
final. -/
theorem onresult_retains_interim_text :
    processEvents [[{ isFinal := false, text := "hello" }],
        [{ isFinal := true, text := "hello" }]] = "hellohello " ∧
    finalsConcat [[{ isFinal := false, text := "hello" }],
        [{ isFinal := true, text := "hello" }]] = "hello " ∧
    processEvents [[{ isFinal := false, text := "hello" }],
        [{ isFinal := true, text := "hello" }]] ≠
      finalsConcat [[{ isFinal := false, text := "hello" }],
        [{ isFinal := true, text := "hello" }]] ∧
    processEvents [[{ isFinal := true, text := "hello" }],
        [{ isFinal := false, text := "wor" }]] = "wor" ∧
    finalsConcat [[{ isFinal := true, text := "hello" }],
        [{ isFinal := false, text := "wor" }]] = "hello " := by
  refine ⟨by decide, by decide, by decide, by decide, by decide⟩

/-- C2 counterexample: an end event at a state that is still recording with
stop not requested (the tab merely hidden) attempts no restart, refuting the
unconditional restart claim. -/
theorem onend_restart_counterexample :
    (onendStep { isRecording := true,
                 documentHidden := true,
                 permissionState := .granted,
                 transcript := "hello there",
                 isRecognitionActive := true }).2 = false := by decide

/-- C2 (amended): an end event never changes the transcript or the notes; a
restart is attempted exactly when the controller is still recording, the
document is visible, permission is still granted and a recognition object
exists; in particular no restart is ever attempted when no longer
recording. -/
theorem onend_restart_conditions (s : AppState) :
    (onendStep s).1.transcript = s.transcript ∧
    (onendStep s).1.notes = s.notes ∧
    ((onendStep s).2 = true ↔
      (s.isRecording = true ∧ s.documentHidden = false ∧
       s.permissionState = PermState.granted ∧ s.hasRecognition = true)) ∧
    (s.isRecording = false → (onendStep s).2 = false) := by
  cases hr : s.isRecording <;> cases hd : s.documentHidden <;>
    cases hg : s.hasRecognition <;>
    by_cases hp : s.permissionState = PermState.granted <;>
    simp [onendStep, hr, hd, hg, hp]

/-- C2 witness: the no-restart-when-inactive conjunct at a concrete state. -/
theorem onend_restart_conditions_witness :
    (onendStep { isRecording := false, transcript := "t" } : AppState × Bool).2
      = false :=
  (onend_restart_conditions { isRecording := false, transcript := "t" }).2.2.2
    rfl

/-- C3 counterexample: invoking the start routine in a state with an active
session (recognition running, transcript "hello") does not leave the
existing session's transcript unaffected: the routine clears it and aborts
the session. -/
theorem start_while_active_counterexample :
    (startRecording { isRecording := true,
                      recognitionRunning := true,
                      isRecognitionActive := true,
                      permissionState := .granted,
                      transcript := "hello",
                      recordingStartTime := some 0,
                      now := 5000 }).transcript ≠
      ({ isRecording := true,
         recognitionRunning := true,
         isRecognitionActive := true,
         permissionState := .granted,
         transcript := "hello",
         recordingStartTime := some 0,
         now := 5000 } : AppState).transcript ∧
    (startRecording { isRecording := true,
                      recognitionRunning := true,
                      isRecognitionActive := true,
                      permissionState := .granted,
                      transcript := "hello",
                      recordingStartTime := some 0,
                      now := 5000 }).isRecording = false := by
  refine ⟨by decide, by decide⟩

/-- C3 (amended): a start request delivered through the record button while
a session is active is routed to stop: no second session begins, the
accumulated transcript and the note store are unchanged; the start routine
itself does not guard on the active state, and invoked directly while the
recognition subsystem is running it clears the transcript and falls back to
not recording. -/
theorem start_while_active (s : AppState) (h : s.isRecording = true) :
    handleRecordingClick s = stopRecording s ∧
    (handleRecordingClick s).transcript = s.transcript ∧
    (handleRecordingClick s).notes = s.notes ∧
    (handleRecordingClick s).isRecording = false ∧
    (s.hasRecognition = true → s.isSupported = true →
      s.secureConnection = true → s.permissionState = PermState.granted →
      s.recognitionRunning = true →
      (startRecording s).transcript = "" ∧
      (startRecording s).isRecording = false) := by
  refine ⟨?_, ?_, ?_, ?_, ?_⟩
  · simp [handleRecordingClick, h]
  · simp [handleRecordingClick, h, stopRecording]
  · simp [handleRecordingClick, h, stopRecording]
  · simp [handleRecordingClick, h, stopRecording]
  · intro h1 h2 h3 h4 h5
    constructor <;>
      simp [startRecording, startRecordingBody, h1, h2, h3, h4, h5]

/-- C3 witness: the amended statement applied at a concrete active state. -/
theorem start_while_active_witness :
    (handleRecordingClick { isRecording := true,
                            transcript := "x",
                            recognitionRunning := true,
                            permissionState := .granted }).transcript = "x" ∧
    (startRecording { isRecording := true,
                      transcript := "x",
                      recognitionRunning := true,
                      permissionState := .granted }).transcript = "" :=
  ⟨(start_while_active { isRecording := true,
                         transcript := "x",
                         recognitionRunning := true,
                         permissionState := .granted } rfl).2.1,
   ((start_while_active { isRecording := true,
                          transcript := "x",
                          recognitionRunning := true,
                          permissionState := .granted } rfl).2.2.2.2
      rfl rfl rfl rfl rfl).1⟩

/-! ### Timeline lemmas -/

theorem flatten_perm_of_perm {α : Type} {l1 l2 : List (List α)}
    (h : List.Perm l1 l2) : List.Perm l1.flatten l2.flatten := by
  induction h with
  | nil => exact List.Perm.refl _
  | cons x _ ih => simpa using ih.append_left x
  | swap x y l =>
    simp only [List.flatten_cons, ← List.append_assoc]
    exact List.perm_append_comm.append_right _
  | trans _ _ ih1 ih2 => exact ih1.trans ih2

theorem addToGroups_keys (gs : List (Int × List Note)) (d : Int) (n : Note) :
    (addToGroups gs d n).map Prod.fst =
      if d ∈ gs.map Prod.fst then gs.map Prod.fst
      else gs.map Prod.fst ++ [d] := by
  induction gs with
  | nil => simp [addToGroups]
  | cons g rest ih =>
    obtain ⟨k, ns⟩ := g
    by_cases h : k = d
    · simp [addToGroups, h]
    · simp only [addToGroups, if_neg h, List.map_cons, ih]
      by_cases h2 : d ∈ rest.map Prod.fst
      · simp [h2, List.mem_cons]
      · simp [h2, List.mem_cons, Ne.symm h]

theorem addToGroups_keys_nodup {gs : List (Int × List Note)} {d : Int}
    {n : Note} (h : (gs.map Prod.fst).Nodup) :
    ((addToGroups gs d n).map Prod.fst).Nodup := by
  rw [addToGroups_keys]
  by_cases hm : d ∈ gs.map Prod.fst
  · simpa [hm] using h
  · rw [if_neg hm]
    refine List.Nodup.append h (List.nodup_singleton d) ?_
    intro x hx hxd
    simp only [List.mem_singleton] at hxd
    subst hxd
    exact hm hx

theorem groupedNotes_keys_nodup (notes : List Note) :
    ((groupedNotes notes).map Prod.fst).Nodup := by
  have key : ∀ (ns : List Note) (gs : List (Int × List Note)),
      (gs.map Prod.fst).Nodup →
      ((ns.foldl (fun gs n => addToGroups gs (dayOf n.timestamp) n) gs).map
        Prod.fst).Nodup := by
    intro ns
    induction ns with
    | nil => intro gs h; simpa using h
    | cons n ns ih => intro gs h; exact ih _ (addToGroups_keys_nodup h)
  exact key notes [] (by simp)

theorem addToGroups_flatten_perm (gs : List (Int × List Note)) (d : Int)
    (n : Note) :
    List.Perm ((addToGroups gs d n).map Prod.snd).flatten
      ((gs.map Prod.snd).flatten ++ [n]) := by
  induction gs with
  | nil => simp [addToGroups]
  | cons g rest ih =>
    obtain ⟨k, ns⟩ := g
    by_cases h : k = d
    · simp only [addToGroups, if_pos h, List.map_cons, List.flatten_cons]
      rw [List.append_assoc, List.append_assoc]
      exact List.Perm.append_left ns List.perm_append_comm
    · simp only [addToGroups, if_neg h, List.map_cons, List.flatten_cons]
      rw [List.append_assoc]
      exact List.Perm.append_left ns ih

theorem groupedNotes_flatten_perm (notes : List Note) :
    List.Perm ((groupedNotes notes).map Prod.snd).flatten notes := by
  have key : ∀ (ns : List Note) (gs : List (Int × List Note)),
      List.Perm
        (((ns.foldl (fun gs n => addToGroups gs (dayOf n.timestamp) n)
          gs).map Prod.snd).flatten)
        ((gs.map Prod.snd).flatten ++ ns) := by
    intro ns
    induction ns with
    | nil => intro gs; simp
    | cons n ns ih =>
      intro gs
      have h1 := ih (addToGroups gs (dayOf n.timestamp) n)
      have h2 := addToGroups_flatten_perm gs (dayOf n.timestamp) n
      simp only [List.foldl_cons]
      refine h1.trans ((h2.append_right ns).trans ?_)
      rw [List.append_assoc, List.singleton_append]
  simpa using key notes []

theorem addToGroups_day {gs : List (Int × List Note)} {d : Int} {n : Note}
    (hgs : ∀ g ∈ gs, ∀ m ∈ g.2, dayOf m.timestamp = g.1)
    (hn : dayOf n.timestamp = d) :
    ∀ g ∈ addToGroups gs d n, ∀ m ∈ g.2, dayOf m.timestamp = g.1 := by
  induction gs with
  | nil =>
    intro g hg m hm
    simp [addToGroups] at hg
    subst hg
    simp at hm
    subst hm
    exact hn
  | cons g0 rest ih =>
    obtain ⟨k, ns⟩ := g0
    by_cases h : k = d
    · intro g hg m hm
      simp only [addToGroups, if_pos h, List.mem_cons] at hg
      rcases hg with hg | hg
      · subst hg
        simp only [List.mem_append, List.mem_singleton] at hm
        rcases hm with hm | hm
        · exact hgs (k, ns) (by simp) m hm
        · subst hm; rw [hn, h]
      · exact hgs g (by simp [hg]) m hm
    · intro g hg m hm
      simp only [addToGroups, if_neg h, List.mem_cons] at hg
      rcases hg with hg | hg
      · subst hg; exact hgs (k, ns) (by simp) m hm
      · exact ih (fun g hg2 => hgs g (by simp [hg2])) g hg m hm

theorem groupedNotes_day (notes : List Note) :
    ∀ g ∈ groupedNotes notes, ∀ m ∈ g.2, dayOf m.timestamp = g.1 := by
  have key : ∀ (ns : List Note) (gs : List (Int × List Note)),
      (∀ g ∈ gs, ∀ m ∈ g.2, dayOf m.timestamp = g.1) →
      ∀ g ∈ ns.foldl (fun gs n => addToGroups gs (dayOf n.timestamp) n) gs,
        ∀ m ∈ g.2, dayOf m.timestamp = g.1 := by
    intro ns
    induction ns with
    | nil => intro gs h; simpa using h
    | cons n ns ih =>
      intro gs h
      exact ih _ (addToGroups_day h rfl)
  exact key notes [] (by simp)

theorem flatten_map_sortGroup_perm (l : List (Int × List Note)) :
    List.Perm (l.map (fun g => sortGroupNotes g.2)).flatten
      ((l.map Prod.snd).flatten) := by
  induction l with
  | nil => exact List.Perm.refl _
  | cons g rest ih =>
    simp only [List.map_cons, List.flatten_cons]
    exact (List.perm_insertionSort noteGE g.2).append ih

theorem dayOf_sub_msPerDay (now : Int) :
    dayOf (now - msPerDay) = dayOf now - 1 := by
  unfold dayOf msPerDay
  have h : now - 86400000 = now + (-1) * 86400000 := by ring
  rw [h, Int.add_mul_ediv_right _ _ (by norm_num)]
  ring

/-- C8: the timeline partitions the notes by local calendar day (each group
holds exactly notes of its day and their concatenation is a permutation of
the input), orders groups newest day first (strictly descending day keys),
orders notes within a group newest first, labels the current day Today, the
previous day Yesterday and any other day by long weekday/month/day; and the
specification's example (notes today 09:00 and 14:00, yesterday 20:00)
yields Today with 14:00 before 09:00, then Yesterday. -/
theorem timeline_grouping (now : Int) (notes : List Note) :
    List.Pairwise (fun g1 g2 => g2.1 < g1.1) (sortedGroups notes) ∧
    List.Perm ((timeline now notes).map Prod.snd).flatten notes ∧
    (∀ g ∈ sortedGroups notes, ∀ m ∈ g.2, dayOf m.timestamp = g.1) ∧
    (∀ p ∈ timeline now notes,
      List.Pairwise (fun a b => b.timestamp ≤ a.timestamp) p.2) ∧
    timeline now notes =
      (sortedGroups notes).map
        (fun g => (formatDate now g.1, sortGroupNotes g.2)) ∧
    formatDate now (dayOf now) = "Today" ∧
    formatDate now (dayOf now - 1) = "Yesterday" ∧
    (∀ d, d ≠ dayOf now → d ≠ dayOf now - 1 →
      formatDate now d = localeDateString d) ∧
    localeDateString 0 = "Thursday, January 1" ∧
    timeline 1728054000000
        [{ id := "a", text := "nine", timestamp := 1728032400000 },
         { id := "b", text := "fourteen", timestamp := 1728050400000 },
         { id := "c", text := "late", timestamp := 1727985600000 }] =
      [("Today",
        [{ id := "b", text := "fourteen", timestamp := 1728050400000 },
         { id := "a", text := "nine", timestamp := 1728032400000 }]),
       ("Yesterday",
        [{ id := "c", text := "late", timestamp := 1727985600000 }])] := by
  have hperm : List.Perm (sortedGroups notes) (groupedNotes notes) :=
    List.perm_insertionSort groupGE _
  refine ⟨?_, ?_, ?_, ?_, rfl, ?_, ?_, ?_, by decide, by decide⟩
  · have hs : List.Pairwise groupGE (sortedGroups notes) :=
      List.sorted_insertionSort groupGE _
    have hkeys : ((sortedGroups notes).map Prod.fst).Nodup :=
      ((hperm.map Prod.fst).nodup_iff).mpr (groupedNotes_keys_nodup notes)
    have hne : List.Pairwise
        (fun g1 g2 : Int × List Note => g1.1 ≠ g2.1) (sortedGroups notes) :=
      List.pairwise_map.mp hkeys
    exact (hs.and hne).imp
      (fun h => lt_of_le_of_ne h.1 (fun e => h.2 e.symm))
  · have e1 : (timeline now notes).map Prod.snd =
        (sortedGroups notes).map (fun g => sortGroupNotes g.2) := by
      simp only [timeline, List.map_map]
      rfl
    rw [e1]
    exact (flatten_map_sortGroup_perm (sortedGroups notes)).trans
      ((flatten_perm_of_perm (hperm.map Prod.snd)).trans
        (groupedNotes_flatten_perm notes))
  · intro g hg m hm
    simp only [sortedGroups, List.mem_insertionSort] at hg
    exact groupedNotes_day notes g hg m hm
  · intro p hp
    simp only [timeline, List.mem_map] at hp
    obtain ⟨g, hg, he⟩ := hp
    subst he
    exact List.sorted_insertionSort noteGE g.2
  · simp [formatDate]
  · have hy := dayOf_sub_msPerDay now
    simp only [formatDate, hy]
    rw [if_neg (by omega)]
    simp
  · intro d h1 h2
    simp only [formatDate, dayOf_sub_msPerDay now]
    rw [if_neg h1, if_neg h2]

/-- C8 witness: the day-membership and within-group-order conjuncts applied
at the specification's example day. -/
theorem timeline_grouping_witness :
    dayOf (1728032400000 : Int) = 20000 ∧
    List.Pairwise (fun a b : Note => b.timestamp ≤ a.timestamp)
      [{ id := "b", text := "fourteen", timestamp := 1728050400000 },
       { id := "a", text := "nine", timestamp := 1728032400000 }] :=
  ⟨(timeline_grouping 1728054000000
      [{ id := "a", text := "nine", timestamp := 1728032400000 },
       { id := "b", text := "fourteen", timestamp := 1728050400000 },
       { id := "c", text := "late", timestamp := 1727985600000 }]).2.2.1
      (20000,
        [{ id := "a", text := "nine", timestamp := 1728032400000 },
         { id := "b", text := "fourteen", timestamp := 1728050400000 }])
      (by decide)
      { id := "a", text := "nine", timestamp := 1728032400000 } (by decide),
   (timeline_grouping 1728054000000
      [{ id := "a", text := "nine", timestamp := 1728032400000 },
       { id := "b", text := "fourteen", timestamp := 1728050400000 },
       { id := "c", text := "late", timestamp := 1727985600000 }]).2.2.2.1
      ("Today",
        [{ id := "b", text := "fourteen", timestamp := 1728050400000 },
         { id := "a", text := "nine", timestamp := 1728032400000 }])
      (by decide)⟩

end MindEcho
